import Mathlib

/-!
Shallow embedding of the core of the `london-rag-agent` repository:
`src/RAG/rag_engine.py` (class `RAGStore`) and `src/RAG/agent.py`
(class `SimpleAgent`), together with proofs about the spec's claims.

Python floats used for prices are modelled as exact rationals (the claims
are about ordering and truncation, which exact arithmetic preserves),
machine integers as `Int`/`Nat`, numpy vectors as `List Int`, and the
FAISS flat L2 index as the list of its stored vectors.  Fallible Python
code returns `Except PyExc`; mutation of `self` and of the on-disk
artifacts is explicit state passing.
-/

/-- Python exception values that the modelled code can raise. -/
inductive PyExc where
  /-- Python `ValueError` (e.g. `int("")`, or "FAISS index not built or loaded."). -/
  | valueError
  /-- Python `IndexError` (out-of-range indexing, `emb.shape[1]` on an empty array). -/
  | indexError
  /-- Python `AttributeError` (attribute access on `None`). -/
  | attributeError
  /-- Python `FileNotFoundError` (opening a missing artifact). -/
  | fileNotFound
  /-- an exception escaping from the external embedding model. -/
  | embedError
  deriving DecidableEq, Repr

deriving instance DecidableEq for Except

/-- Python `str.lower` on one character (inputs of interest are ASCII). -/
def pyLowerChar (c : Char) : Char := c.toLower

/-- Python `str.lower`, on the character list of a string. -/
def pyLower (s : List Char) : List Char := s.map pyLowerChar

/-- Python regex class `\d` (ASCII fragment). -/
def isPyDigit (c : Char) : Bool := c.isDigit

/-- Python regex class `\s` (ASCII fragment: space, tab, newline, CR, FF, VT). -/
def isPySpace (c : Char) : Bool :=
  c = ' ' || c = '\t' || c = '\n' || c = '\r' || c = '\x0c' || c = '\x0b'

/-- Numeric value of a nonempty string of decimal digits (Python `int(...)`). -/
def digitsToNat (ds : List Char) : Nat :=
  ds.foldl (fun acc c => 10 * acc + (c.toNat - '0'.toNat)) 0

/-- Python `int(s)` for a string of digits: raises `ValueError` on the empty
string, otherwise parses in base 10. -/
def pyIntOfString (ds : List Char) : Except PyExc Int :=
  if ds = [] then .error .valueError else .ok (digitsToNat ds)

/-- Python `int(x)` on a number: truncation toward zero. -/
def pyInt (q : ℚ) : Int := q.num.tdiv q.den

/-- Python sequence indexing `l[i]` with negative-index wraparound;
`none` models an `IndexError`. -/
def pyGet {α : Type} (l : List α) (i : Int) : Option α :=
  if 0 ≤ i then l.get? i.toNat
  else if i.natAbs ≤ l.length then l.get? (l.length - i.natAbs)
  else none

/-- Python `str.title` on a character list: a character is uppercased when the
previous character is not alphabetic, lowercased otherwise. -/
def pyTitleAux : List Char → Bool → List Char
  | [], _ => []
  | c :: cs, prevAlpha =>
      (if prevAlpha then c.toLower else c.toUpper) :: pyTitleAux cs c.isAlpha

/-- Python `str.title` on a string. -/
def pyTitle (s : String) : String := ⟨pyTitleAux s.data false⟩

/-- Python `needle in hay` on strings (contiguous substring test). -/
def pyIn (needle hay : List Char) : Bool := decide (needle <:+: hay)

/-- Case-insensitive substring test:
pandas `hay.str.contains(needle, case=False)` for a pattern free of regex
metacharacters (all borough names produced by the planner are). -/
def containsCI (hay needle : String) : Bool :=
  pyIn (pyLower needle.data) (pyLower hay.data)

/-- One row of the cleaned property catalog (`processed/clean_properties.csv`);
only the fields the modelled code reads. -/
structure Record where
  property_id : String
  address : String
  borough : String
  bedrooms : Int
  price : ℚ
  deriving DecidableEq, Repr

/-- One metadata entry `{"pid": ..., "row": ...}` stored by `build_index`. -/
structure Meta where
  pid : String
  row : Nat
  deriving DecidableEq, Repr

/-- A `faiss.IndexFlatL2`: its dimensionality and the vectors added to it. -/
structure FaissIndex where
  dim : Nat
  vectors : List (List Int)
  deriving DecidableEq, Repr

/-- The mutable fields of a `RAGStore` instance. -/
structure StoreState where
  index : Option FaissIndex
  texts : List String
  metas : List Meta
  df : Option (List Record)
  deriving DecidableEq, Repr

/-- The three on-disk artifacts (`embeddings.npy`, `faiss.index`,
`faiss_meta.pkl`); `none` means the file is absent. -/
structure Disk where
  embeddings : Option (List (List Int))
  faiss : Option FaissIndex
  meta : Option (List String × List Meta)
  deriving DecidableEq, Repr

/-- One element of the list returned by `RAGStore.query`.  The distance is an
exact squared-L2 value, with `⊤` standing for the FLT_MAX padding FAISS
uses when `k` exceeds the number of stored vectors. -/
structure QueryResult where
  property_id : String
  distance : WithTop Int
  snippet : String
  deriving DecidableEq, Repr

/-- Squared L2 distance between two vectors (FAISS `IndexFlatL2` metric). -/
def l2sq (u v : List Int) : Int :=
  (List.zipWith (fun a b => (a - b) ^ 2) u v).sum

/-- Stable insertion of `a` into `l`: `a` goes after every element `x` with
`le x a` and before the first with `¬ le x a`. -/
def insertLe {α : Type} (le : α → α → Bool) (a : α) : List α → List α
  | [] => [a]
  | x :: xs => if le x a then x :: insertLe le a xs else a :: x :: xs

/-- Stable insertion sort by the boolean comparator `le`. -/
def sortLe {α : Type} (le : α → α → Bool) (l : List α) : List α :=
  l.foldl (fun acc a => insertLe le a acc) []

/-- Comparator used to model the FAISS exact search: ascending squared
distance, ties by ascending stored index. -/
def pairLE (x y : (WithTop Int) × Int) : Bool :=
  decide (x.1 < y.1) || (decide (x.1 = y.1) && decide (x.2 ≤ y.2))

/-- Model of `faiss.IndexFlatL2.search` on one query vector: the `k` nearest stored
vectors by squared L2 distance in non-decreasing order; when `k` exceeds the
number of stored vectors the remaining slots are padded with distance
FLT_MAX (modelled `⊤`) and label `-1`. -/
def faissSearch (db : List (List Int)) (qv : List Int) (k : Nat) :
    List ((WithTop Int) × Int) :=
  let scored := db.enum.map fun p => (((l2sq qv p.2 : Int) : WithTop Int), (p.1 : Int))
  let sorted := sortLe pairLE scored
  sorted.take k ++ List.replicate (k - sorted.length) (⊤, -1)

/-- The canonical text representation `build_index` embeds for one record:
`f"{property_id} | {address} | {borough} | {bedrooms} bed | £{price}"`
(numeric rendering follows the Lean types). -/
def docText (r : Record) : String :=
  r.property_id ++ " | " ++ r.address ++ " | " ++ r.borough ++ " | " ++
    toString r.bedrooms ++ " bed | £" ++ toString r.price

/-- Result of a `build_index` call: the store and disk after the call, and
either the returned `{"count": n}` or the exception that escaped. -/
structure BuildResult where
  store : StoreState
  disk : Disk
  out : Except PyExc Nat
  deriving DecidableEq, Repr

/-- Model of `RAGStore.build_index`.  `embed` is the external sentence-transformer
(`none` models an embedding call raising).  Faithful to the statement order
of the source: `self.df` is assigned first; the embeddings artifact is
written before `emb.shape[1]` is read (which raises `IndexError` when the
catalog, hence `emb`, is empty); only then are the in-memory index and the
remaining two artifacts replaced. -/
def buildIndex (embed : String → Option (List Int)) (s : StoreState)
    (disk : Disk) (df : List Record) : BuildResult :=
  let s1 := { s with df := some df }
  let docs := df.map docText
  let metas := df.enum.map fun p => Meta.mk p.2.property_id p.1
  match docs.mapM embed with
  | none => ⟨s1, disk, .error .embedError⟩
  | some emb =>
    let disk1 := { disk with embeddings := some emb }
    match emb with
    | [] => ⟨s1, disk1, .error .indexError⟩
    | v :: rest =>
      let idx : FaissIndex := ⟨v.length, v :: rest⟩
      let s2 := { s1 with index := some idx, texts := docs, metas := metas }
      let disk2 := { disk1 with faiss := some idx, meta := some (docs, metas) }
      ⟨s2, disk2, .ok docs.length⟩

/-- Model of `RAGStore.load_index`: if the FAISS artifact exists it is read into
memory, then the metadata pickle is read (raising `FileNotFoundError` if it
is missing, with `self.index` already replaced) and the call returns `True`;
if the FAISS artifact is absent the call returns `False` untouched. -/
def loadIndex (s : StoreState) (disk : Disk) :
    StoreState × Except PyExc Bool :=
  match disk.faiss with
  | none => (s, .ok false)
  | some idx =>
    match disk.meta with
    | none => ({ s with index := some idx }, .error .fileNotFound)
    | some tm => ({ s with index := some idx, texts := tm.1, metas := tm.2 }, .ok true)

/-- Model of `RAGStore.query`: raises `ValueError` when no index is in memory,
embeds the query text, searches the index, and builds one result per
returned `(distance, label)` pair via `self.metas[idx]` / `self.texts[idx]`
(Python indexing, so the `-1` padding label reads the *last* entry, and
raises `IndexError` only when the lists are empty).  The store is returned
unchanged: the method assigns no attribute. -/
def query (embed : String → Option (List Int)) (s : StoreState)
    (q : String) (k : Nat) : StoreState × Except PyExc (List QueryResult) :=
  match s.index with
  | none => (s, .error .valueError)
  | some idx =>
    match embed q with
    | none => (s, .error .embedError)
    | some qv =>
      let pairs := faissSearch idx.vectors qv k
      match pairs.mapM (fun di =>
          match pyGet s.metas di.2, pyGet s.texts di.2 with
          | some m, some t => some (QueryResult.mk m.pid di.1 t)
          | _, _ => none) with
      | none => (s, .error .indexError)
      | some rs => (s, .ok rs)

/-- The structured filter spec built by `SimpleAgent.plan`
(`plan["filters"]`); an absent key is `none`. -/
structure Filters where
  bedrooms : Option Int := none
  borough : Option String := none
  max_price : Option Int := none
  deriving DecidableEq, Repr

/-- A planner output `{"filters": ..., "tool": ...}`. -/
structure Plan where
  tool : String
  filters : Filters
  deriving DecidableEq, Repr

/-- The fixed borough enumeration scanned by `SimpleAgent.plan`. -/
def boroughList : List String :=
  ["camden", "westminster", "hackney", "lambeth", "greenwich", "islington"]

/-- Model of `SimpleAgent.clarify`: appends a default price ceiling when the raw
query contains "cheap" (case-insensitively), otherwise passes through. -/
def clarify (q : String) : String :=
  if pyIn "cheap".data (pyLower q.data) then q ++ " under £500000" else q

/-- Attempt of the regex `(\d+)\s*bed` at the head of `cs`: a nonempty
greedy digit run, optional whitespace, then the literal `bed`; returns the
captured digit group.  (Giving back characters from the greedy `\d+` or
`\s*` can never make the later literal match, so no backtracking is
needed.) -/
def matchBedAt (cs : List Char) : Option (List Char) :=
  let ds := cs.takeWhile isPyDigit
  if ds = [] then none
  else
    let rest := (cs.drop ds.length).dropWhile isPySpace
    if "bed".data <+: rest then some ds else none

/-- Model of `re.search` of `(\d+)\s*bed` (leftmost match): tries every start
position left to right. -/
def searchBed : List Char → Option (List Char)
  | [] => none
  | c :: cs =>
    match matchBedAt (c :: cs) with
    | some ds => some ds
    | none => searchBed cs

/-- Attempt of the regex `under\s*£?([0-9,]+)k?` at the head of `cs`:
the literal `under`, greedy whitespace, an optional `£`, then a nonempty
greedy run of digits and commas; returns the captured digit/comma group
(the trailing `k?` never affects the capture).  As for `matchBedAt`,
backtracking of the greedy pieces can never help. -/
def matchUnderAt (cs : List Char) : Option (List Char) :=
  if "under".data <+: cs then
    let rest := (cs.drop 5).dropWhile isPySpace
    let rest2 := match rest with
      | '£' :: more => more
      | _ => rest
    let grp := rest2.takeWhile (fun c => isPyDigit c || c = ',')
    if grp = [] then none else some grp
  else none

/-- Model of `re.search` of `under\s*£?([0-9,]+)k?` (leftmost match). -/
def searchUnder : List Char → Option (List Char)
  | [] => none
  | c :: cs =>
    match matchUnderAt (c :: cs) with
    | some g => some g
    | none => searchUnder cs

/-- The borough extraction loop of `SimpleAgent.plan`: every borough of the
fixed list that occurs in the lower-cased query overwrites the previous
value, so the last match in enumeration order wins. -/
def boroughScan (q : List Char) : Option String :=
  boroughList.foldl
    (fun acc b => if pyIn b.data q then some (pyTitle b) else acc) none

/-- Model of `SimpleAgent.plan`.  The only exception the source can raise is the
`ValueError` of `int(...)` when the captured price group consists solely of
commas (`int("")`); the digits are parsed with thousands separators
removed, and the value is multiplied by 1000 when the letter `k` occurs
anywhere in the lower-cased query. -/
def plan (clarified : String) : Except PyExc Plan :=
  let q := pyLower clarified.data
  let bedrooms := (searchBed q).map fun ds => (digitsToNat ds : Int)
  let borough := boroughScan q
  match searchUnder q with
  | none => .ok ⟨"filter", ⟨bedrooms, borough, none⟩⟩
  | some g =>
    match pyIntOfString (g.filter fun c => c ≠ ',') with
    | .error e => .error e
    | .ok v =>
      let v := if q.contains 'k' then v * 1000 else v
      .ok ⟨"filter", ⟨bedrooms, borough, some v⟩⟩

/-- Record comparator of `df.sort_values("price")`: ascending price. -/
def priceLE (a b : Record) : Bool := decide (a.price ≤ b.price)

/-- Model of `SimpleAgent.execute`: raises `AttributeError` when `self.rag.df` is
`None` (`None.copy()`); otherwise filters a copy of the catalog by the
present filters in order (borough case-insensitive containment, bedrooms
equality, price upper bound), sorts by price (`df.sort_values("price")`)
and keeps the first five rows.  The store is returned unchanged: the
method works on a copy and assigns no attribute.

The sort is taken as the parameter `sortValues` because the source leaves
`sort_values` at its default kind `quicksort` (numpy introsort), for which
pandas guarantees a price-sorted permutation of the rows but **not**
stability: the relative order of equal-price rows is unspecified.
`IsPriceSort` below states exactly that library contract. -/
def execute (sortValues : List Record → List Record) (s : StoreState)
    (p : Plan) : StoreState × Except PyExc (List Record) :=
  match s.df with
  | none => (s, .error .attributeError)
  | some df =>
    let df1 := match p.filters.borough with
      | none => df
      | some b => df.filter fun r => containsCI r.borough b
    let df2 := match p.filters.bedrooms with
      | none => df1
      | some n => df1.filter fun r => decide (r.bedrooms = n)
    let df3 := match p.filters.max_price with
      | none => df2
      | some m => df2.filter fun r => decide (r.price ≤ (m : ℚ))
    (s, .ok ((sortValues df3).take 5))

/-- The contract pandas documents for `df.sort_values("price")` under
*every* sort kind: the result is a permutation of the rows, non-decreasing
in price.  Stability is deliberately **not** part of this contract — the
default kind `quicksort` is documented as not stable — so nothing below
may depend on the order of equal-price rows. -/
def IsPriceSort (sortValues : List Record → List Record) : Prop :=
  ∀ l : List Record, List.Perm (sortValues l) l ∧
    (sortValues l).Pairwise (fun a b => a.price ≤ b.price)

/-- The `{"answer": ..., "citations": ...}` value built by
`SimpleAgent.respond`. -/
structure Response where
  answer : String
  citations : List String
  deriving DecidableEq, Repr

/-- One bullet line of `SimpleAgent.respond`:
`f"- {r['address']} (£{int(r['price'])}, ID: {r['property_id']})"`. -/
def respondLine (r : Record) : String :=
  "- " ++ r.address ++ " (£" ++ toString (pyInt r.price) ++ ", ID: " ++
    r.property_id ++ ")"

/-- Model of `SimpleAgent.respond`. -/
def respond (results : List Record) : Response :=
  if results = [] then ⟨"No matching properties found.", []⟩
  else
    ⟨"Found properties:\n" ++ String.intercalate "\n" (results.map respondLine),
     results.map fun r => r.property_id⟩

/-- One element of the `steps` list built by `SimpleAgent.run`; the
`execute` entry records only the row count (`{"step": "execute", "rows":
len(results)}`). -/
inductive Step where
  | clarifyStep (output : String)
  | planStep (output : Plan)
  | executeStep (rows : Nat)
  | respondStep (output : Response)
  deriving DecidableEq, Repr

/-- The `"step"` field of a trace entry. -/
def stageName : Step → String
  | .clarifyStep _ => "clarify"
  | .planStep _ => "plan"
  | .executeStep _ => "execute"
  | .respondStep _ => "respond"

/-- The value returned by a successful `SimpleAgent.run`. -/
structure RunOut where
  steps : List Step
  final : Response
  deriving DecidableEq, Repr

/-- Line-by-line image of `SimpleAgent.run`: the first component is the
value of the local `steps` list when control leaves the function (by
return or by an escaping exception), the second the returned response or
the exception.  The `sort_values` implementation used by the execute
stage is passed through. -/
def runAux (sortValues : List Record → List Record) (s : StoreState)
    (q : String) : List Step × Except PyExc Response :=
  let clarified := clarify q
  let steps := [Step.clarifyStep clarified]
  match plan clarified with
  | .error e => (steps, .error e)
  | .ok p =>
    let steps := steps ++ [Step.planStep p]
    match (execute sortValues s p).2 with
    | .error e => (steps, .error e)
    | .ok results =>
      let steps := steps ++ [Step.executeStep results.length]
      let final := respond results
      (steps ++ [Step.respondStep final], .ok final)

/-- Model of `SimpleAgent.run` as observed by the caller: `{"steps": ...,
"final": ...}` on success, the escaping exception otherwise (in which case
the local `steps` list is discarded). -/
def run (sortValues : List Record → List Record) (s : StoreState)
    (q : String) : Except PyExc RunOut :=
  match runAux sortValues s q with
  | (steps, .ok final) => .ok ⟨steps, final⟩
  | (_, .error e) => .error e

/-- Lemma: `insertLe` inserts: the result is a permutation of consing. -/
theorem insertLe_perm {α : Type} (le : α → α → Bool) (a : α) :
    ∀ l : List α, List.Perm (insertLe le a l) (a :: l) := by
  intro l
  induction l with
  | nil => simp [insertLe]
  | cons x xs ih =>
    by_cases h : le x a
    · simpa [insertLe, h] using ((ih.cons x).trans (List.Perm.swap a x xs))
    · simp [insertLe, h]

/-- Lemma: `sortLe` permutes its input. -/
theorem sortLe_perm {α : Type} (le : α → α → Bool) (l : List α) :
    List.Perm (sortLe le l) l := by
  suffices h : ∀ (l : List α) (acc : List α),
      List.Perm (l.foldl (fun acc a => insertLe le a acc) acc) (acc ++ l) by
    simpa using h l []
  intro l
  induction l with
  | nil => simp
  | cons a t ih =>
    intro acc
    refine List.Perm.trans (ih (insertLe le a acc)) ?_
    refine List.Perm.trans (((insertLe_perm le a acc).append_right t)) ?_
    exact List.perm_middle.symm

/-- Inserting into a `le`-sorted list keeps it sorted, for a total
transitive boolean comparator. -/
theorem insertLe_pairwise {α : Type} (le : α → α → Bool)
    (htot : ∀ a b, le a b = false → le b a = true)
    (htrans : ∀ a b c, le a b = true → le b c = true → le a c = true)
    (a : α) : ∀ l : List α, l.Pairwise (fun x y => le x y = true) →
      (insertLe le a l).Pairwise (fun x y => le x y = true) := by
  intro l
  induction l with
  | nil => simp [insertLe]
  | cons x xs ih =>
    intro h
    rcases List.pairwise_cons.1 h with ⟨hx, hxs⟩
    by_cases hle : le x a
    · rw [insertLe, if_pos hle]
      refine List.pairwise_cons.2 ⟨?_, ih hxs⟩
      intro y hy
      rcases List.mem_cons.1 ((insertLe_perm le a xs).mem_iff.1 hy) with rfl | hy'
      · exact hle
      · exact hx _ hy'
    · rw [insertLe, if_neg hle]
      refine List.pairwise_cons.2 ⟨?_, h⟩
      intro y hy
      rcases List.mem_cons.1 hy with rfl | hy'
      · exact htot _ _ (by simpa using hle)
      · exact htrans _ _ _ (htot _ _ (by simpa using hle)) (hx _ hy')

/-- Lemma: `sortLe` sorts, for a total transitive boolean comparator. -/
theorem sortLe_pairwise {α : Type} (le : α → α → Bool)
    (htot : ∀ a b, le a b = false → le b a = true)
    (htrans : ∀ a b c, le a b = true → le b c = true → le a c = true)
    (l : List α) :
    (sortLe le l).Pairwise (fun x y => le x y = true) := by
  suffices h : ∀ (l : List α) (acc : List α),
      acc.Pairwise (fun x y => le x y = true) →
      (l.foldl (fun acc a => insertLe le a acc) acc).Pairwise
        (fun x y => le x y = true) by
    exact h l [] (by simp)
  intro l
  induction l with
  | nil => intro acc h; simpa using h
  | cons a t ih =>
    intro acc h
    exact ih _ (insertLe_pairwise le htot htrans a acc h)

/-- Lemma: `priceLE` is total. -/
theorem priceLE_tot (a b : Record) (h : priceLE a b = false) :
    priceLE b a = true := by
  simp only [priceLE, decide_eq_false_iff_not, decide_eq_true_eq] at h ⊢
  exact le_of_not_le h

/-- Lemma: `priceLE` is transitive. -/
theorem priceLE_trans (a b c : Record) (hab : priceLE a b = true)
    (hbc : priceLE b c = true) : priceLE a c = true := by
  simp only [priceLE, decide_eq_true_eq] at hab hbc ⊢
  exact le_trans hab hbc

/-- Lemma: `pairLE` is total. -/
theorem pairLE_tot (a b : (WithTop Int) × Int) (h : pairLE a b = false) :
    pairLE b a = true := by
  simp only [pairLE, Bool.or_eq_false_iff, Bool.and_eq_false_iff,
    decide_eq_false_iff_not, Bool.or_eq_true, Bool.and_eq_true,
    decide_eq_true_eq] at h ⊢
  rcases h with ⟨h1, h2⟩
  rcases lt_trichotomy a.1 b.1 with hl | he | hg
  · exact absurd hl h1
  · rcases h2 with h2 | h2
    · exact absurd he h2
    · exact Or.inr ⟨he.symm, le_of_not_le h2⟩
  · exact Or.inl hg

/-- Lemma: `pairLE` is transitive. -/
theorem pairLE_trans (a b c : (WithTop Int) × Int) (hab : pairLE a b = true)
    (hbc : pairLE b c = true) : pairLE a c = true := by
  simp only [pairLE, Bool.or_eq_true, Bool.and_eq_true, decide_eq_true_eq]
    at hab hbc ⊢
  rcases hab with hab | ⟨hab1, hab2⟩
  · rcases hbc with hbc | ⟨hbc1, hbc2⟩
    · exact Or.inl (lt_trans hab hbc)
    · exact Or.inl (hbc1 ▸ hab)
  · rcases hbc with hbc | ⟨hbc1, hbc2⟩
    · exact Or.inl (hab1 ▸ hbc)
    · exact Or.inr ⟨hab1.trans hbc1, le_trans hab2 hbc2⟩

/-- The stable insertion sort satisfies the `sort_values` contract; it is
the implementation used to evaluate the model on concrete inputs. -/
theorem isPriceSort_sortLe : IsPriceSort (sortLe priceLE) := by
  intro l
  refine ⟨sortLe_perm priceLE l, ?_⟩
  exact (sortLe_pairwise priceLE priceLE_tot priceLE_trans l).imp
    (fun h => by simpa [priceLE] using h)

/-- Reversing the input before the stable sort also satisfies the
`sort_values` contract — it sorts by price — yet it lists equal-price rows
in reverse catalog order.  Its existence shows the contract does not
determine the tie order. -/
theorem isPriceSort_sortLe_reverse :
    IsPriceSort (fun l => sortLe priceLE l.reverse) := by
  intro l
  refine ⟨(sortLe_perm priceLE l.reverse).trans (List.reverse_perm l), ?_⟩
  exact (sortLe_pairwise priceLE priceLE_tot priceLE_trans l.reverse).imp
    (fun h => by simpa [priceLE] using h)

/-- A record passes every filter present in a filter spec: borough by
case-insensitive containment, bedrooms by equality, price by upper bound;
an absent filter imposes no constraint. -/
def satisfiesF (f : Filters) (r : Record) : Bool :=
  (match f.borough with | none => true | some b => containsCI r.borough b) &&
  (match f.bedrooms with | none => true | some n => decide (r.bedrooms = n)) &&
  (match f.max_price with | none => true | some m => decide (r.price ≤ (m : ℚ)))

/-- The successful branch of `execute` returns the first five records of
the price-sort of the records passing all present filters, whatever sort
implementation `sort_values` uses. -/
theorem execute_eq (sortValues : List Record → List Record) (s : StoreState)
    (p : Plan) (df : List Record) (h : s.df = some df) :
    (execute sortValues s p).2 =
      .ok ((sortValues (df.filter (satisfiesF p.filters))).take 5) := by
  unfold execute
  rw [h]
  unfold satisfiesF
  rcases hb : p.filters.borough with _ | b <;>
    rcases hn : p.filters.bedrooms with _ | n <;>
      rcases hm : p.filters.max_price with _ | m <;>
        simp [hb, hn, hm, List.filter_filter, Bool.and_comm,
          Bool.and_left_comm, Bool.and_assoc]

/-- C4 (code bug): for every sort implementation within the library's
contract, `execute` returns only records satisfying every present filter
(conjunctively; absent filters impose no constraint), at most five of
them, sorted by non-decreasing price.  The claim's remaining conjunct —
ties broken by original catalog order (stable sort) — is **not** implied
by the code: `sort_values` is left at its unstable default kind, and an
implementation within the same contract returns the equal-price records
of a concrete catalog in the opposite of catalog order. -/
theorem C4_execute_guarantees :
    (∀ sortValues, IsPriceSort sortValues →
      ∀ (s : StoreState) (p : Plan) (df : List Record), s.df = some df →
      ∃ res, (execute sortValues s p).2 = .ok res ∧
        (∀ r ∈ res,
          (∀ b, p.filters.borough = some b → containsCI r.borough b = true) ∧
          (∀ n, p.filters.bedrooms = some n → r.bedrooms = n) ∧
          (∀ m, p.filters.max_price = some m → r.price ≤ (m : ℚ))) ∧
        res.length ≤ 5 ∧
        res.Pairwise (fun a b => a.price ≤ b.price)) ∧
    (∃ sortValues, IsPriceSort sortValues ∧
      (execute sortValues
          ⟨none, [], [],
            some [⟨"P1", "1 A St", "Camden", 2, 300000⟩,
                  ⟨"P2", "2 B St", "Camden", 3, 300000⟩]⟩
          ⟨"filter", ⟨none, none, none⟩⟩).2 =
        .ok [⟨"P2", "2 B St", "Camden", 3, 300000⟩,
             ⟨"P1", "1 A St", "Camden", 2, 300000⟩]) := by
  constructor
  · intro sortValues hsv s p df h
    refine ⟨_, execute_eq sortValues s p df h, ?_, ?_, ?_⟩
    · intro r hr
      have hr1 : r ∈ sortValues (df.filter (satisfiesF p.filters)) :=
        List.mem_of_mem_take hr
      have hr2 : r ∈ df.filter (satisfiesF p.filters) :=
        (hsv _).1.mem_iff.1 hr1
      have hsat : satisfiesF p.filters r = true := List.of_mem_filter hr2
      simp only [satisfiesF, Bool.and_eq_true] at hsat
      refine ⟨?_, ?_, ?_⟩
      · intro b hb; rw [hb] at hsat; exact hsat.1.1
      · intro n hn; rw [hn] at hsat; simpa using hsat.1.2
      · intro m hm; rw [hm] at hsat; simpa using hsat.2
    · exact List.length_take_le 5 _
    · exact ((hsv _).2).sublist (List.take_sublist 5 _)
  · exact ⟨fun l => sortLe priceLE l.reverse, isPriceSort_sortLe_reverse,
      by decide⟩

/-- Lemma: `getLast?` of a nonempty list is never `none`. -/
theorem getLast?_cons_ne_none {α : Type} (y : α) :
    ∀ ys : List α, (y :: ys).getLast? ≠ none := by
  intro ys
  induction ys generalizing y with
  | nil => simp
  | cons z zs ih => rw [List.getLast?_cons_cons]; exact ih z

/-- A fold that overwrites on every test success returns the image of the
last passing element. -/
theorem foldl_if_last {α β : Type} (pred : α → Bool) (f : α → β) :
    ∀ (l : List α) (acc : Option β),
      l.foldl (fun acc b => if pred b then some (f b) else acc) acc =
        ((l.filter pred).getLast?).elim acc (fun b => some (f b)) := by
  intro l
  induction l with
  | nil => intro acc; rfl
  | cons x t ih =>
    intro acc
    by_cases hx : pred x
    · have hfil : (x :: t).filter pred = x :: t.filter pred := by
        simp [List.filter_cons, hx]
      rw [List.foldl_cons, if_pos hx, ih, hfil]
      cases htf : t.filter pred with
      | nil => simp
      | cons y ys =>
        rw [List.getLast?_cons_cons]
        rcases hyl : (y :: ys).getLast? with _ | b
        · exact absurd hyl (getLast?_cons_ne_none y ys)
        · rfl
    · have hfil : (x :: t).filter pred = t.filter pred := by
        simp [List.filter_cons, hx]
      rw [List.foldl_cons, if_neg hx, ih, hfil]

/-- The borough scan returns the last borough of the enumeration that
occurs in the query (title-cased), `none` when none occurs. -/
theorem boroughScan_eq (q : List Char) :
    boroughScan q =
      ((boroughList.filter (fun b => pyIn b.data q)).getLast?).map pyTitle := by
  unfold boroughScan
  rw [foldl_if_last (fun b => pyIn b.data q) pyTitle boroughList none]
  cases (boroughList.filter (fun b => pyIn b.data q)).getLast? <;> rfl

/-- Lemma: `pyIntOfString` succeeds exactly on nonempty digit strings, with the
base-10 value. -/
theorem pyIntOfString_ok (ds : List Char) (v : Int)
    (h : pyIntOfString ds = .ok v) : v = (digitsToNat ds : Int) := by
  unfold pyIntOfString at h
  split at h
  · exact absurd h (by simp)
  · injection h with h'
    exact h'.symm

/-- Inversion of a successful `plan`: the tool is `"filter"`, the bedrooms
field is the first `(\d+)\s*bed` match and the borough field is the borough
scan, both over the lower-cased query. -/
theorem plan_ok_inv (clarified : String) (p : Plan)
    (hp : plan clarified = .ok p) :
    p.tool = "filter" ∧
    p.filters.bedrooms =
      (searchBed (pyLower clarified.data)).map
        (fun ds => (digitsToNat ds : Int)) ∧
    p.filters.borough = boroughScan (pyLower clarified.data) := by
  unfold plan at hp
  simp only [] at hp
  split at hp
  · have h := Except.ok.inj hp
    subst h
    exact ⟨rfl, rfl, rfl⟩
  · split at hp
    · exact Except.noConfusion hp
    · have h := Except.ok.inj hp
      subst h
      exact ⟨rfl, rfl, rfl⟩

/-- C5: whenever the lower-cased clarified query matches
`under\s*£?([0-9,]+)k?` and `plan` returns, the `max_price` filter is the
integer value of the captured group with thousands separators removed,
multiplied by 1000 exactly when the letter `k` occurs anywhere in the
lower-cased clarified query (not only adjacent to the matched number). -/
theorem C5_price_k_multiplier (clarified : String) (p : Plan) (g : List Char)
    (hp : plan clarified = .ok p)
    (hg : searchUnder (pyLower clarified.data) = some g) :
    p.filters.max_price =
      some ((digitsToNat (g.filter fun c => c ≠ ',') : Int) *
        (if (pyLower clarified.data).contains 'k' then 1000 else 1)) := by
  unfold plan at hp
  simp only [] at hp
  split at hp
  next hsu => rw [hg] at hsu; exact Option.noConfusion hsu
  next g' hsu =>
    rw [hg] at hsu
    have hgg : g' = g := Option.some.inj hsu.symm
    subst hgg
    split at hp
    · exact Except.noConfusion hp
    next v hpi =>
      have hv := pyIntOfString_ok _ _ hpi
      have h := Except.ok.inj hp
      subst h
      subst hv
      by_cases hk : (pyLower clarified.data).contains 'k' <;>
        simp [hk]

/-- C5 witness: in `"2 bed under 300, kitchen"` the captured group is
`300,` and the only `k` is in the word "kitchen", yet the price is
multiplied by 1000. -/
theorem C5_witness :
    (Plan.mk "filter" ⟨some 2, none, some 300000⟩).filters.max_price =
      some 300000 :=
  (C5_price_k_multiplier "2 bed under 300, kitchen"
    ⟨"filter", ⟨some 2, none, some 300000⟩⟩ ['3', '0', '0', ',']
    rfl rfl).trans rfl

/-- C6: when more than one known borough name occurs (case-insensitively)
in the clarified query, `plan` keeps the last matching name in the fixed
enumeration order, title-cased — the scan does not stop at the first
match. -/
theorem C6_borough_last_match (clarified : String) (p : Plan) (b : String)
    (hp : plan clarified = .ok p)
    (hlast : (boroughList.filter
        (fun s => pyIn s.data (pyLower clarified.data))).getLast? = some b)
    (_hmulti : 2 ≤ (boroughList.filter
        (fun s => pyIn s.data (pyLower clarified.data))).length) :
    p.filters.borough = some (pyTitle b) := by
  have h := (plan_ok_inv clarified p hp).2.2
  rw [h, boroughScan_eq, hlast, Option.map_some']

/-- C6 witness: `plan("2 bed in camden and westminster under £400000")`
sets the borough to `"Westminster"` even though Camden occurs first. -/
theorem C6_witness :
    (Plan.mk "filter" ⟨some 2, some "Westminster", some 400000⟩).filters.borough
      = some "Westminster" :=
  (C6_borough_last_match "2 bed in camden and westminster under £400000"
    ⟨"filter", ⟨some 2, some "Westminster", some 400000⟩⟩ "westminster"
    rfl rfl (by decide)).trans rfl

/-- C7: `plan("3 bed flat in camden under 500k")` yields the filter spec
`{bedrooms: 3, borough: "Camden", max_price: 500000}`, the bedrooms coming
from the first `(\d+)\s*bed` match of the lower-cased query. -/
theorem C7_plan_example :
    plan "3 bed flat in camden under 500k" =
      .ok ⟨"filter", ⟨some 3, some "Camden", some 500000⟩⟩ ∧
    searchBed (pyLower "3 bed flat in camden under 500k".data) = some ['3'] :=
  ⟨rfl, rfl⟩

/-- The catalog used by the C4 witness. -/
def dfW4 : List Record :=
  [⟨"P1", "1 A St", "Camden", 2, 300000⟩,
   ⟨"P2", "2 B St", "Camden", 2, 250000⟩,
   ⟨"P3", "3 C St", "Hackney", 3, 100000⟩]

/-- The plan used by the C4 witness. -/
def pW4 : Plan := ⟨"filter", ⟨some 2, some "Camden", some 500000⟩⟩

/-- C4 witness: the guaranteed part, at the stable implementation, over a
concrete store, catalog and fully populated filter spec. -/
theorem C4_witness :
    ∃ res, (execute (sortLe priceLE) ⟨none, [], [], some dfW4⟩ pW4).2 =
        .ok res ∧
      (∀ r ∈ res,
        (∀ b, pW4.filters.borough = some b → containsCI r.borough b = true) ∧
        (∀ n, pW4.filters.bedrooms = some n → r.bedrooms = n) ∧
        (∀ m, pW4.filters.max_price = some m → r.price ≤ (m : ℚ))) ∧
      res.length ≤ 5 ∧
      res.Pairwise (fun a b => a.price ≤ b.price) :=
  C4_execute_guarantees.1 (sortLe priceLE) isPriceSort_sortLe
    ⟨none, [], [], some dfW4⟩ pW4 dfW4 rfl

/-- On non-negative rationals, Python truncation agrees with the floor. -/
theorem pyInt_eq_floor (q : ℚ) (h : 0 ≤ q) : pyInt q = ⌊q⌋ := by
  rw [pyInt, Int.tdiv_eq_ediv (Rat.num_nonneg.2 h) (Int.natCast_nonneg _),
    Rat.floor_def]

/-- C9: `respond` on the empty list is exactly the fixed no-match response;
on a non-empty list the answer is one bullet line per result in input
order (address, integer-truncated price, property id) and the citations
are the property ids in the same order, duplicates preserved; the price
rendering truncates (never rounds): for `0 ≤ q`, `int(q)` lies in
`(q - 1, q]`. -/
theorem C9_respond_format :
    respond [] = ⟨"No matching properties found.", []⟩ ∧
    (∀ results : List Record, results ≠ [] →
      (respond results).answer =
        "Found properties:\n" ++
          String.intercalate "\n" (results.map respondLine) ∧
      (respond results).citations = results.map fun r => r.property_id) ∧
    (∀ q : ℚ, 0 ≤ q → (pyInt q : ℚ) ≤ q ∧ q < (pyInt q : ℚ) + 1) := by
  refine ⟨rfl, ?_, ?_⟩
  · intro results h
    rw [respond, if_neg h]
    exact ⟨rfl, rfl⟩
  · intro q hq
    rw [pyInt_eq_floor q hq]
    exact ⟨Int.floor_le q, Int.lt_floor_add_one q⟩

/-- C9 witness: the spec's example row. -/
theorem C9_witness :
    (respond [⟨"P001", "10 High Street", "Camden", 2, (450000 : ℚ)⟩]).answer =
      "Found properties:\n- 10 High Street (£450000, ID: P001)" ∧
    (respond [⟨"P001", "10 High Street", "Camden", 2, (450000 : ℚ)⟩]).citations =
      ["P001"] ∧
    (pyInt (450000 : ℚ) : ℚ) ≤ (450000 : ℚ) :=
  ⟨((C9_respond_format.2.1 _ (by simp)).1).trans rfl,
   ((C9_respond_format.2.1 _ (by simp)).2).trans rfl,
   (C9_respond_format.2.2 (450000 : ℚ) (by decide)).1⟩

/-- C10: query serving never mutates shared state: `execute` and `query`
return the store exactly as they found it (the catalog dataframe, index,
texts and metadata included); `execute` works on a copy of the dataframe
and `query` only reads the index. -/
theorem C10_query_serving_pure (sortValues : List Record → List Record)
    (embed : String → Option (List Int))
    (s : StoreState) (p : Plan) (q : String) (k : Nat) :
    (execute sortValues s p).1 = s ∧ (query embed s q k).1 = s := by
  constructor
  · unfold execute
    split <;> rfl
  · unfold query
    split
    · rfl
    · split
      · rfl
      · simp only []
        split <;> rfl

/-- C8: `run` executes clarify, plan, execute, respond in that fixed
order.  The `steps` list is always stage-named as a prefix of that order
(one entry per completed stage, never reordered or duplicated); an
`execute` entry records the row count of the executed results; when every
stage succeeds the caller gets all four steps and the response, and when a
stage raises, the `steps` list holds exactly the stages completed before
the failure, the exception propagates to the caller, and no response is
returned. -/
theorem C8_run_stage_machine (sortValues : List Record → List Record)
    (s : StoreState) (q : String) :
    ((runAux sortValues s q).1.map stageName =
      ["clarify", "plan", "execute", "respond"].take
        (runAux sortValues s q).1.length) ∧
    (∀ n, Step.executeStep n ∈ (runAux sortValues s q).1 →
      ∃ p res, plan (clarify q) = .ok p ∧
        (execute sortValues s p).2 = .ok res ∧ n = res.length) ∧
    (∀ final, (runAux sortValues s q).2 = .ok final →
      run sortValues s q = .ok ⟨(runAux sortValues s q).1, final⟩ ∧
        (runAux sortValues s q).1.length = 4) ∧
    (∀ e, (runAux sortValues s q).2 = .error e →
      run sortValues s q = .error e ∧
        (runAux sortValues s q).1.length < 4) := by
  rcases hp : plan (clarify q) with e | p
  · refine ⟨?_, ?_, ?_, ?_⟩ <;>
      simp [run, runAux, hp, stageName]
  · rcases he : (execute sortValues s p).2 with e2 | res
    · refine ⟨?_, ?_, ?_, ?_⟩ <;>
        simp [run, runAux, hp, he, stageName]
    · refine ⟨?_, ?_, ?_, ?_⟩
      · simp [run, runAux, hp, he, stageName]
      · intro n hn
        refine ⟨p, res, rfl, he, ?_⟩
        simp [runAux, hp, he] at hn
        exact hn
      · intro final hf
        simp [runAux, hp, he] at hf
        simp [run, runAux, hp, he, hf]
      · intro e he'
        simp [runAux, hp, he] at he'

/-- C8 witness: a run over a store with an empty catalog completes all
four stages and returns the no-match response. -/
theorem C8_witness :
    run (sortLe priceLE) ⟨none, [], [], some []⟩ "hi" =
      .ok ⟨(runAux (sortLe priceLE) ⟨none, [], [], some []⟩ "hi").1,
        ⟨"No matching properties found.", []⟩⟩ ∧
    (runAux (sortLe priceLE) ⟨none, [], [], some []⟩ "hi").1.length = 4 :=
  (C8_run_stage_machine (sortLe priceLE) ⟨none, [], [], some []⟩ "hi").2.2.1
    ⟨"No matching properties found.", []⟩ rfl

/-- Embedding used by the concrete examples: a text maps to the
one-dimensional vector holding its length. -/
def embedLen : String → Option (List Int) := fun t => some [(t.length : Int)]

/-- A store that already holds a built index over a one-record catalog. -/
def sC1 : StoreState :=
  ⟨some ⟨1, [[5]]⟩, ["t"], [⟨"P9", 0⟩], some [⟨"P1", "1 A St", "Camden", 2, 100⟩]⟩

/-- A disk that already holds the three artifacts of a previous build. -/
def dC1 : Disk := ⟨some [[5]], some ⟨1, [[5]]⟩, some (["t"], [⟨"P9", 0⟩])⟩

/-- C1, corrected: a failing build is *not* atomic and raises no dedicated
build error.  On an empty catalog, `build_index` raises `IndexError` (from
`emb.shape[1]`; the source has no `IndexBuildError` type) only after
already replacing `self.df` and overwriting the embeddings artifact with
an empty array; when an embedding call raises, the error escapes after
`self.df` was already replaced, the disk still untouched.  The in-memory
index, texts and metas and the FAISS/metadata artifacts do keep their
prior values in both cases. -/
theorem C1_build_failure_effects (embed : String → Option (List Int))
    (s : StoreState) (disk : Disk) (df : List Record) :
    (df = [] →
      buildIndex embed s disk df =
        ⟨{ s with df := some df }, { disk with embeddings := some [] },
          .error .indexError⟩) ∧
    ((df.map docText).mapM embed = none →
      buildIndex embed s disk df =
        ⟨{ s with df := some df }, disk, .error .embedError⟩) := by
  constructor
  · rintro rfl
    rfl
  · intro h
    unfold buildIndex
    simp only []
    rw [h]

/-- C1 counterexample: building from an empty catalog over a store and
disk that hold a previous build fails, but the in-memory state and the
on-disk artifacts do **not** remain what they were before the call: the
dataframe is replaced and the embeddings artifact is overwritten, and the
error is a plain `IndexError`, not a dedicated build error. -/
theorem C1_counterexample :
    (buildIndex embedLen sC1 dC1 []).out = .error .indexError ∧
    (buildIndex embedLen sC1 dC1 []).store ≠ sC1 ∧
    (buildIndex embedLen sC1 dC1 []).disk ≠ dC1 := by
  refine ⟨rfl, ?_, ?_⟩ <;> decide

/-- C1 witness: both failure modes of the amended statement at concrete
inputs — the empty catalog and a raising embedding call. -/
theorem C1_witness :
    buildIndex embedLen sC1 dC1 [] =
      ⟨{ sC1 with df := some [] }, { dC1 with embeddings := some [] },
        .error .indexError⟩ ∧
    buildIndex (fun _ => none) sC1 dC1 [⟨"P1", "1 A St", "Camden", 2, 100⟩] =
      ⟨{ sC1 with df := some [⟨"P1", "1 A St", "Camden", 2, 100⟩] }, dC1,
        .error .embedError⟩ :=
  ⟨(C1_build_failure_effects embedLen sC1 dC1 []).1 rfl,
   (C1_build_failure_effects (fun _ => none) sC1 dC1 _).2 rfl⟩

/-- Inversion of a successful `build_index`: the embeddings are nonempty,
the count is the catalog length, and the final store and disk hold the
index over those embeddings with texts and metadata in catalog order. -/
theorem buildIndex_ok_inv (embed : String → Option (List Int))
    (s : StoreState) (disk : Disk) (df : List Record) (B : BuildResult)
    (c : Nat) (hB : buildIndex embed s disk df = B) (hok : B.out = .ok c) :
    ∃ v rest, (df.map docText).mapM embed = some (v :: rest) ∧
      c = df.length ∧
      B.store = { s with
        index := some ⟨v.length, v :: rest⟩,
        texts := df.map docText,
        metas := df.enum.map fun p => Meta.mk p.2.property_id p.1,
        df := some df } ∧
      B.disk = { disk with
        embeddings := some (v :: rest),
        faiss := some ⟨v.length, v :: rest⟩,
        meta := some (df.map docText,
          df.enum.map fun p => Meta.mk p.2.property_id p.1) } := by
  subst hB
  rcases hm : (df.map docText).mapM embed with _ | emb
  · have hB2 : buildIndex embed s disk df =
        ⟨{ s with df := some df }, disk, .error .embedError⟩ := by
      unfold buildIndex
      simp only []
      rw [hm]
    rw [hB2] at hok
    exact absurd hok (by simp)
  · rcases emb with _ | ⟨v, rest⟩
    · have hB2 : buildIndex embed s disk df =
          ⟨{ s with df := some df }, { disk with embeddings := some [] },
            .error .indexError⟩ := by
        unfold buildIndex
        simp only []
        rw [hm]
      rw [hB2] at hok
      exact absurd hok (by simp)
    · have hB2 : buildIndex embed s disk df =
          ⟨{ s with
              index := some ⟨v.length, v :: rest⟩,
              texts := df.map docText,
              metas := df.enum.map fun p => Meta.mk p.2.property_id p.1,
              df := some df },
            { disk with
              embeddings := some (v :: rest),
              faiss := some ⟨v.length, v :: rest⟩,
              meta := some (df.map docText,
                df.enum.map fun p => Meta.mk p.2.property_id p.1) },
            .ok (df.map docText).length⟩ := by
        unfold buildIndex
        simp only []
        rw [hm]
      rw [hB2] at hok
      have hc := Except.ok.inj hok
      refine ⟨v, rest, rfl, by simpa using hc.symm, by rw [hB2], by rw [hB2]⟩

/-- The result list of `query` depends only on the index, texts and
metadata of the store. -/
theorem query_out_congr (embed : String → Option (List Int))
    (s t : StoreState) (q : String) (k : Nat)
    (h1 : s.index = t.index) (h2 : s.texts = t.texts)
    (h3 : s.metas = t.metas) :
    (query embed s q k).2 = (query embed t q k).2 := by
  unfold query
  rw [h1, h2, h3]
  rcases hi : t.index with _ | idx
  · rfl
  · rcases he : embed q with _ | qv
    · rfl
    · simp only []
      cases hmm : (faissSearch idx.vectors qv k).mapM
          (fun di =>
            match pyGet t.metas di.2, pyGet t.texts di.2 with
            | some m, some tx => some (QueryResult.mk m.pid di.1 tx)
            | _, _ => none) with
      | none => rfl
      | some rs => rfl

/-- C2: after a successful build over catalog `C` the returned count is
`len(C)`, and a subsequent `load_index` from the written artifacts (from
any starting store) succeeds and restores exactly the vectors, texts and
metadata the build held in memory, so `query` answers identically for any
fixed query text and k. -/
theorem C2_build_count_load_roundtrip (embed : String → Option (List Int))
    (s : StoreState) (disk : Disk) (df : List Record) (B : BuildResult)
    (c : Nat) (hB : buildIndex embed s disk df = B) (hok : B.out = .ok c) :
    c = df.length ∧
    ∀ s' : StoreState,
      (loadIndex s' B.disk).2 = .ok true ∧
      (loadIndex s' B.disk).1.index = B.store.index ∧
      (loadIndex s' B.disk).1.texts = B.store.texts ∧
      (loadIndex s' B.disk).1.metas = B.store.metas ∧
      ∀ (q : String) (k : Nat),
        (query embed (loadIndex s' B.disk).1 q k).2 =
          (query embed B.store q k).2 := by
  obtain ⟨v, rest, hm, hc, hstore, hdisk⟩ :=
    buildIndex_ok_inv embed s disk df B c hB hok
  refine ⟨hc, fun s' => ?_⟩
  rw [hdisk, hstore]
  exact ⟨rfl, rfl, rfl, rfl, fun q k =>
    query_out_congr embed _ _ q k rfl rfl rfl⟩

/-- The catalog used by the C2 witness. -/
def dfC2 : List Record :=
  [⟨"P1", "1 A St", "Camden", 2, 100⟩, ⟨"P2", "2 B St", "Hackney", 3, 200⟩]

/-- The build of the C2 witness, from a fresh store and an empty disk. -/
def bC2 : BuildResult :=
  buildIndex embedLen ⟨none, [], [], none⟩ ⟨none, none, none⟩ dfC2

/-- C2 witness: the theorem applied to a concrete two-record catalog whose
build returns count 2. -/
theorem C2_witness :
    2 = dfC2.length ∧
    ∀ s' : StoreState,
      (loadIndex s' bC2.disk).2 = .ok true ∧
      (loadIndex s' bC2.disk).1.index = bC2.store.index ∧
      (loadIndex s' bC2.disk).1.texts = bC2.store.texts ∧
      (loadIndex s' bC2.disk).1.metas = bC2.store.metas ∧
      ∀ (q : String) (k : Nat),
        (query embedLen (loadIndex s' bC2.disk).1 q k).2 =
          (query embedLen bC2.store q k).2 :=
  C2_build_count_load_roundtrip embedLen ⟨none, [], [], none⟩
    ⟨none, none, none⟩ dfC2 bC2 2 rfl rfl

/-- A successful `mapM` over `Option` preserves length. -/
theorem mapM_option_length {α β : Type} (f : α → Option β) :
    ∀ (l : List α) (fl : List β), l.mapM f = some fl → fl.length = l.length := by
  intro l
  induction l with
  | nil =>
    intro fl h
    simp only [List.mapM_nil, pure, Option.some.injEq] at h
    subst h
    rfl
  | cons a t ih =>
    intro fl h
    rw [List.mapM_cons] at h
    rcases ha : f a with _ | b <;> rw [ha] at h
    · simp at h
    · rcases ht : t.mapM f with _ | bs <;> rw [ht] at h
      · simp at h
      · have h2 : b :: bs = fl := by simpa using h
        rw [← h2]
        simp [ih bs ht]

/-- Non-negative in-range Python indexing succeeds. -/
theorem pyGet_isSome_of_lt {α : Type} (l : List α) (i : Int) (h0 : 0 ≤ i)
    (h : i.toNat < l.length) : (pyGet l i).isSome := by
  rw [pyGet, if_pos h0, List.get?_eq_get h]
  rfl

/-- Python indexing at `-1` on a nonempty list returns the last element. -/
theorem pyGet_neg_one_isSome {α : Type} (l : List α) (h : l ≠ []) :
    (pyGet l (-1)).isSome := by
  have hl : 0 < l.length := List.length_pos.2 h
  rw [pyGet, if_neg (by decide), if_pos (by simpa using hl),
    List.get?_eq_get (by omega)]
  rfl

/-- Lemma: `faissSearch` returns exactly `k` rows. -/
theorem faissSearch_length (db : List (List Int)) (qv : List Int) (k : Nat) :
    (faissSearch db qv k).length = k := by
  unfold faissSearch
  simp only []
  rw [List.length_append, List.length_take, List.length_replicate]
  have hp := (sortLe_perm pairLE (db.enum.map fun p =>
    (((l2sq qv p.2 : Int) : WithTop Int), (p.1 : Int)))).length_eq
  rw [hp]
  simp
  omega

/-- Every row of `faissSearch` carries either an in-range store label or
the `-1` padding row. -/
theorem faissSearch_mem (db : List (List Int)) (qv : List Int) (k : Nat)
    (x : (WithTop Int) × Int) (hx : x ∈ faissSearch db qv k) :
    (0 ≤ x.2 ∧ x.2.toNat < db.length) ∨ x = (⊤, -1) := by
  unfold faissSearch at hx
  simp only [] at hx
  rcases List.mem_append.1 hx with h | h
  · left
    have h2 := List.mem_of_mem_take h
    have h3 := (sortLe_perm pairLE _).mem_iff.1 h2
    rcases List.mem_map.1 h3 with ⟨pr, hpr, rfl⟩
    have hlt : pr.1 < db.length := by
      have := List.mem_enum_iff_getElem?.1 hpr
      have := List.getElem?_eq_some.1 this
      exact this.1
    simp only []
    refine ⟨Int.natCast_nonneg _, ?_⟩
    simpa using hlt
  · right
    exact List.eq_of_mem_replicate h

/-- Lemma: `pairLE` implies ordering of the distance components. -/
theorem pairLE_fst_le (x y : (WithTop Int) × Int) (h : pairLE x y = true) :
    x.1 ≤ y.1 := by
  simp only [pairLE, Bool.or_eq_true, Bool.and_eq_true, decide_eq_true_eq] at h
  rcases h with h | ⟨h, _⟩
  · exact le_of_lt h
  · exact le_of_eq h

/-- The distances of `faissSearch` rows are non-decreasing (the padding
distance `⊤` closes every row list). -/
theorem faissSearch_sorted (db : List (List Int)) (qv : List Int) (k : Nat) :
    (faissSearch db qv k).Pairwise (fun a b => a.1 ≤ b.1) := by
  unfold faissSearch
  simp only []
  refine List.pairwise_append.2 ⟨?_, ?_, ?_⟩
  · have hp := sortLe_pairwise pairLE pairLE_tot pairLE_trans
      (db.enum.map fun p => (((l2sq qv p.2 : Int) : WithTop Int), (p.1 : Int)))
    exact (hp.sublist (List.take_sublist k _)).imp (fun h => pairLE_fst_le _ _ h)
  · rw [List.pairwise_replicate]
    exact Or.inr le_rfl
  · intro a _ b hb
    rw [List.eq_of_mem_replicate hb]
    exact le_top

/-- When every row's label resolves in the metadata and texts lists, the
result loop of `query` succeeds and copies the distances in order. -/
theorem mapM_query_results (metas : List Meta) (texts : List String) :
    ∀ pairs : List ((WithTop Int) × Int),
      (∀ x ∈ pairs, (pyGet metas x.2).isSome ∧ (pyGet texts x.2).isSome) →
      ∃ rs, pairs.mapM (fun di =>
          match pyGet metas di.2, pyGet texts di.2 with
          | some m, some t => some (QueryResult.mk m.pid di.1 t)
          | _, _ => none) = some rs ∧
        rs.map (fun r => r.distance) = pairs.map (fun x => x.1) := by
  intro pairs
  induction pairs with
  | nil => exact fun _ => ⟨[], rfl, rfl⟩
  | cons a t ih =>
    intro h
    obtain ⟨hm, ht⟩ := h a (List.mem_cons_self a t)
    rcases hgm : pyGet metas a.2 with _ | m
    · rw [hgm] at hm; exact absurd hm (by simp)
    rcases hgt : pyGet texts a.2 with _ | tx
    · rw [hgt] at ht; exact absurd ht (by simp)
    obtain ⟨rs, hrs, hmap⟩ := ih (fun x hx => h x (List.mem_cons_of_mem a hx))
    refine ⟨QueryResult.mk m.pid a.1 tx :: rs, ?_, ?_⟩
    · rw [List.mapM_cons]
      simp only [hgm, hgt]
      rw [show (mapM (fun di =>
          match pyGet metas di.2, pyGet texts di.2 with
          | some m, some t => some (QueryResult.mk m.pid di.1 t)
          | _, _ => none) t : Option (List QueryResult)) = some rs from hrs]
      rfl
    · simp [hmap]

/-- C3, corrected: after a successful build, a query whose embedding
succeeds returns a list of **exactly** `k` results (FAISS pads with
`-1`-labelled rows of maximal distance when `k` exceeds the catalog size,
and Python's negative indexing resolves the padding label to the last
metadata entry instead of failing), with distances non-decreasing from
first to last. -/
theorem C3_query_length_k_sorted (embed : String → Option (List Int))
    (s : StoreState) (disk : Disk) (df : List Record) (B : BuildResult)
    (c : Nat) (q : String) (k : Nat) (qv : List Int)
    (hB : buildIndex embed s disk df = B) (hok : B.out = .ok c)
    (hq : embed q = some qv) :
    ∃ rs, (query embed B.store q k).2 = .ok rs ∧ rs.length = k ∧
      rs.Pairwise (fun a b => a.distance ≤ b.distance) := by
  obtain ⟨v, rest, hm, hc, hstore, hdisk⟩ :=
    buildIndex_ok_inv embed s disk df B c hB hok
  have hlenemb : (v :: rest).length = (df.map docText).length :=
    mapM_option_length embed _ _ hm
  have hdfne : df ≠ [] := by
    intro h0
    rw [h0] at hlenemb
    simp at hlenemb
  have hall : ∀ x ∈ faissSearch (v :: rest) qv k,
      (pyGet (df.enum.map fun p => Meta.mk p.2.property_id p.1) x.2).isSome ∧
      (pyGet (df.map docText) x.2).isSome := by
    intro x hx
    rcases faissSearch_mem _ _ _ _ hx with ⟨h0, hlt⟩ | hpad
    · constructor
      · refine pyGet_isSome_of_lt _ _ h0 ?_
        simp only [List.length_map]
        have : df.enum.length = df.length := by simp
        rw [this]
        have := hlt
        rw [hlenemb] at this
        simpa using this
      · refine pyGet_isSome_of_lt _ _ h0 ?_
        rw [← hlenemb]
        exact hlt
    · rw [hpad]
      constructor
      · refine pyGet_neg_one_isSome _ ?_
        simp [hdfne]
      · refine pyGet_neg_one_isSome _ ?_
        simp [hdfne]
  obtain ⟨rs, hrs, hmap⟩ := mapM_query_results
    (df.enum.map fun p => Meta.mk p.2.property_id p.1) (df.map docText)
    (faissSearch (v :: rest) qv k) hall
  have hout : (query embed B.store q k).2 = .ok rs := by
    rw [hstore]
    unfold query
    simp only [hq, hrs]
  refine ⟨rs, hout, ?_, ?_⟩
  · have hlen := congrArg List.length hmap
    simp only [List.length_map] at hlen
    rw [hlen, faissSearch_length]
  · have hps := faissSearch_sorted (v :: rest) qv k
    have h1 : ((faissSearch (v :: rest) qv k).map (fun x => x.1)).Pairwise
        (fun a b => a ≤ b) := List.pairwise_map.2 hps
    rw [← hmap] at h1
    exact List.pairwise_map.1 h1

/-- C3 counterexample: after building over a one-record catalog, a query
with `k = 2` returns two results — more than `min(k, catalog size) = 1`,
so the claimed length bound fails on the code. -/
theorem C3_counterexample :
    ((query embedLen (buildIndex embedLen ⟨none, [], [], none⟩
          ⟨none, none, none⟩ [⟨"P1", "1 A St", "Camden", 2, 100⟩]).store
        "x" 2).2.toOption.map List.length) = some 2 ∧
    ¬(2 ≤ min 2 1) := by
  exact ⟨by decide, by decide⟩

/-- C3 witness: the amended theorem at the concrete two-record build,
`k = 5`. -/
theorem C3_witness :
    ∃ rs, (query embedLen bC2.store "x" 5).2 = .ok rs ∧ rs.length = 5 ∧
      rs.Pairwise (fun a b => a.distance ≤ b.distance) :=
  C3_query_length_k_sorted embedLen ⟨none, [], [], none⟩ ⟨none, none, none⟩
    dfC2 bC2 2 "x" 5 [1] rfl rfl rfl
